import Mathlib

/-!
Verification of the trajectory segmentation engine, compact binary run codec,
and windowed playback computations of the pokerl-map-viz repository
(large-scale-viz/high_perf_character_render).

Shallow embedding conventions:
* Rust i64 / usize / u8 / u16 values are modelled as Lean Int / Nat with the
  wraparound of narrowing casts made explicit (`% 65536` for `as u16`).
* Rust f32 arithmetic is modelled as exact rational arithmetic over Rat; all
  constants appearing in the code (217.5, 221.5, 16.0, 4096.0, 30.0, 0.1, ...)
  are exactly representable, and the claims under study concern values where
  the real computations are exact.
* The externally loaded lookup tables (map_data.json region table and the
  transitions_weak.json warp table) are parameters of the model: the region
  table is a function Int -> Option (Rat x Rat) and the warp table, which the
  code queries with the string "[prev_map]-[curr_map]" built only from the two
  region ids, is a function Int -> Int -> Bool.
* Timestamps are modelled in integer milliseconds; chrono Duration comparisons
  become integer comparisons in milliseconds.
-/

/- The Batteries rational-number operations are irreducible by default, which
blocks kernel evaluation of the model on concrete inputs; restore the default
reducibility so that concrete runs can be settled by decide. -/
unseal Rat.add Rat.mul Rat.sub Rat.inv Rat.ofScientific

/-! ## Coordinate mapper (src/data/coordinate_mapper.rs) -/

/-- Sentinel returned by the mapper for unknown region ids
(`INVALID_MAP_ID_FLAG`, coordinate_mapper.rs line 33). -/
def INVALID_MAP_ID_FLAG : ℚ × ℚ := (117117, 117117)

/-- `CoordinateMapper::convert_coords` (coordinate_mapper.rs lines 59-78).
Input is a game coordinate `[x, y, map_region_id]` (Rust `[i64; 3]`); the
region table `regions` models the `HashMap<i64, MapRegion>` with each region's
2D pixel offset.  Known id: `((x + mx - 217.5) * 16 + 4096,
(y + my - 221.5) * 16 + 4096)`; unknown id: the invalid-position sentinel. -/
def convert_coords (regions : Int → Option (ℚ × ℚ)) (c : Int × Int × Int) : ℚ × ℚ :=
  match regions c.2.2 with
  | some (mx, my) =>
      (((c.1 : ℚ) + mx - 217.5) * 16 + 4096, ((c.2.1 : ℚ) + my - 221.5) * 16 + 4096)
  | none => INVALID_MAP_ID_FLAG

/-! ## Run segmenter (src/bin/extract_compact_runs.rs, `main`) -/

/-- One sample as read from parquet (`SpriteFrame`, sprite_data.rs lines 50-59);
the unused color/extra strings are omitted, and the string user / env ids are
modelled as naturals (only equality on them is ever used). -/
structure Frame where
  timestamp : Int
  user : Nat
  envId : Nat
  spriteId : Nat
  x : Int
  y : Int
  mapId : Int
  pathIndex : Nat
deriving DecidableEq

instance : Inhabited Frame := ⟨⟨0, 0, 0, 0, 0, 0, 0, 0⟩⟩

/-- The game coordinate triple `frame.coords : [i64; 3]`. -/
def Frame.coords (f : Frame) : Int × Int × Int := (f.x, f.y, f.mapId)

/-- CLI arguments and external tables of the extraction tool
(extract_compact_runs.rs `Args`, plus the two lookup tables). -/
structure ExtractConfig where
  minDurationMs : Int
  maxCoordsPerRun : Nat
  palletStartOnly : Bool
  warpTable : Int → Int → Bool
  regions : Int → Option (ℚ × ℚ)

/-- `starting_maps` (extract_compact_runs.rs line 119). -/
def startingMaps : List Int := [0, 37, 40, 38, 39]

/-- `starting_and_adjacent_maps` (line 120). -/
def startingAndAdjacentMaps : List Int := [0, 37, 40, 39, 38, 12, 32]

/-- `map_id_order_required` (line 126). -/
def mapIdOrderRequired : List Int :=
  [0, 37, 40, 38, 39, 12, 1, 13, 51, 2, 54, 14, 59, 60, 61, 15, 3, 35, 36, 88, 16, 17, 5]

/-- `required_order_init_idx` (line 122). -/
def requiredOrderInitIdx : Nat := 5

/-- `gap_threshold = Duration::minutes(2)` (line 171), in milliseconds. -/
def gapThresholdMs : Int := 120000

/-- Squared pixel step between two consecutive samples (lines 242-246).  The
code computes `global_step_delta = sqrt(dx*dx + dy*dy)` and only ever compares
it with 30.0; since both sides are nonnegative, `sqrt(s) > 30` iff `s > 900`,
so the model keeps the exactly-representable square. -/
def stepDeltaSq (regions : Int → Option (ℚ × ℚ)) (prev curr : Frame) : ℚ :=
  let p := convert_coords regions prev.coords
  let c := convert_coords regions curr.coords
  (c.1 - p.1) * (c.1 - p.1) + (c.2 - p.2) * (c.2 - p.2)

/-- `early_big_jump_fail` (lines 247-249).  `exact_start_compatible` is the
hardcoded `true` of line 248, so only the displacement clause remains:
strict mode, fewer than 140 steps since run start, squared step over 900. -/
def earlyBigJumpFail (cfg : ExtractConfig) (stepCount : Nat) (prev curr : Frame) : Bool :=
  cfg.palletStartOnly &&
    (decide (stepCount < 140) && decide ((900 : ℚ) < stepDeltaSq cfg.regions prev curr))

/-- `warp_valid` (lines 266-271): the warp-table query string
`"[prev_map]-[curr_map]"` is built only from the two region ids, or the
current map is one of 0, 1, 40. -/
def warpValidB (cfg : ExtractConfig) (prev curr : Frame) : Bool :=
  cfg.warpTable prev.mapId curr.mapId ||
    decide (curr.mapId = 0) || decide (curr.mapId = 1) || decide (curr.mapId = 40)

/-- `contiguous_local_coords_valid` (lines 280-281).  Note the code takes the
absolute value of the x difference but the raw (signed) y difference. -/
def contiguousLocalValid (prev curr : Frame) : Bool :=
  decide (|curr.x - prev.x| + (curr.y - prev.y) ≤ 60) && decide (curr.mapId = prev.mapId)

/-- `map_id_order_required.iter().position(|&x| x == current_coord[2])`
(line 286). -/
def progressIdxOf (mapId : Int) : Option Nat :=
  mapIdOrderRequired.findIdx? (fun x => x == mapId)

/-- `legal_backtrack` (lines 287-294). -/
def legalBacktrack (progress : Nat) (idx? : Option Nat) : Bool :=
  match idx? with
  | some i => decide (i < progress) && decide (5 < i)
  | none => false

/-- `illegal_skip_ahead` (lines 288-296). -/
def illegalSkipAhead (progress : Nat) (idx? : Option Nat) : Bool :=
  match idx? with
  | some i => decide ((1 : Int) < (i : Int) - (progress : Int))
  | none => false

/-- The update of `run_map_id_progress` (line 298): advanced to
`max progress i` only when the skip-ahead test fails. -/
def nextProgress (progress : Nat) (idx? : Option Nat) : Nat :=
  match idx? with
  | some i => if (1 : Int) < (i : Int) - (progress : Int) then progress else max progress i
  | none => progress

/-- `should_split` (lines 309-310): illegal skip-ahead, or transition neither
warp-valid / contiguous nor a legal backtrack, or temporal gap at least the
threshold, or strict-mode early big jump, or re-entering a starting map from
a non-adjacent map. -/
def shouldSplit (cfg : ExtractConfig) (stepCount progress : Nat) (prev curr : Frame) : Bool :=
  let idx? := progressIdxOf curr.mapId
  illegalSkipAhead progress idx? ||
    !(warpValidB cfg prev curr || contiguousLocalValid prev curr || legalBacktrack progress idx?) ||
    decide (gapThresholdMs ≤ curr.timestamp - prev.timestamp) ||
    earlyBigJumpFail cfg stepCount prev curr ||
    (decide (curr.mapId ∈ startingMaps) && !decide (prev.mapId ∈ startingAndAdjacentMaps))

/-- `pallet_start_ok` (lines 314 and 335): in strict mode the run's first
sample must lie in a starting map. -/
def palletStartOk (cfg : ExtractConfig) (run : List Frame) : Bool :=
  !cfg.palletStartOnly || decide (run.head!.mapId ∈ startingMaps)

/-- The per-group split loop (lines 228-347).  `run` is the open candidate run
`frames[run_start .. j-1]` in order (so its last element is the previous
sample), `progress` is `run_map_id_progress`, and the remaining list holds the
samples from `j` on.  Emitted runs are returned in write order:
* at a split point the candidate is written iff its duration reaches
  `min_duration`, its start passes the pallet check, and the splitting step
  was not an early big jump (lines 312-329);
* at group end the open candidate is written iff duration and pallet check
  pass (lines 332-347). -/
def segGo (cfg : ExtractConfig) (run : List Frame) (progress : Nat) :
    List Frame → List (List Frame)
  | [] =>
      if decide (cfg.minDurationMs ≤ run.getLast!.timestamp - run.head!.timestamp) &&
          palletStartOk cfg run then [run] else []
  | curr :: rest =>
      let prev := run.getLast!
      if shouldSplit cfg run.length progress prev curr then
        (if decide (cfg.minDurationMs ≤ prev.timestamp - run.head!.timestamp) &&
            palletStartOk cfg run && !earlyBigJumpFail cfg run.length prev curr
         then [run] else []) ++ segGo cfg [curr] requiredOrderInitIdx rest
      else
        segGo cfg (run ++ [curr]) (nextProgress progress (progressIdxOf curr.mapId)) rest

/-- Segmentation of one maximal (user, env_id) group (lines 213-347): the open
run starts at the group's first sample with `run_map_id_progress`
initialised to `required_order_init_idx`. -/
def segmentGroup (cfg : ExtractConfig) : List Frame → List (List Frame)
  | [] => []
  | f :: rest => segGo cfg [f] requiredOrderInitIdx rest

/-- Single pass of the outer while-loop of `main` (lines 213-225): `first` is
the current group's first sample (`run_user` / `run_env_id` are compared
against it), `grpTailRev` the rest of the current group collected so far, in
reverse.  When a sample with a different (user, env_id) arrives, or the stream
ends, the completed maximal group is segmented. -/
def segAllGo (cfg : ExtractConfig) (first : Frame) (grpTailRev : List Frame) :
    List Frame → List (List Frame)
  | [] => segmentGroup cfg (first :: grpTailRev.reverse)
  | g :: gs =>
      if g.user = first.user ∧ g.envId = first.envId then
        segAllGo cfg first (g :: grpTailRev) gs
      else
        segmentGroup cfg (first :: grpTailRev.reverse) ++ segAllGo cfg g [] gs

/-- The outer while-loop of `main` (lines 213-348) over a sorted frame list:
each maximal block sharing the first sample's (user, env_id) is one group, and
every group is segmented by the split loop. -/
def segmentAll (cfg : ExtractConfig) : List Frame → List (List Frame)
  | [] => []
  | f :: fs => segAllGo cfg f [] fs

/-! ## Compact run codec
(src/bin/extract_compact_runs.rs `write_compact_run`,
src/bin/render_compact_runs.rs `load_compact_runs_metadata` /
`load_chunk_coords`) -/

/-- `UltraCompactCoord` / `UltraCompactCoordMem`: three bytes x, y, map id
(extract_compact_runs.rs lines 54-60, render_compact_runs.rs lines 71-77). -/
structure CCoord where
  x : Nat
  y : Nat
  mapId : Nat
deriving DecidableEq

instance : Inhabited CCoord := ⟨⟨0, 0, 0⟩⟩

/-- The per-coordinate conversion of `write_compact_run` (lines 392-404):
`u8::try_from` on each i64 component succeeds exactly on 0..=255, and any
failure replaces the whole coordinate by the sentinel (0, 0, 255). -/
def sentinelize (f : Frame) : CCoord :=
  if 0 ≤ f.x ∧ f.x < 256 ∧ 0 ≤ f.y ∧ f.y < 256 ∧ 0 ≤ f.mapId ∧ f.mapId < 256 then
    ⟨f.x.toNat, f.y.toNat, f.mapId.toNat⟩
  else
    ⟨0, 0, 255⟩

/-- Wire form of one `UltraCompactCoord`: the three bytes of the
`#[repr(C, packed)]` struct in field order (lines 406-413). -/
def coordWire (c : CCoord) : List Nat := [c.x, c.y, c.mapId]

/-- `write_compact_run` (extract_compact_runs.rs lines 375-417) as the byte
list it appends to the output file: `coord_count = frames.len().min(max_coords)
as u16` (the cast wraps modulo 65536), written little-endian after the sprite
id, followed by one 3-byte coordinate per frame of `frames.take(max_coords)`.
-/
def writeCompactRun (spriteId : Nat) (frames : List Frame) (maxCoords : Nat) : List Nat :=
  let count := (min frames.length maxCoords) % 65536
  spriteId :: count % 256 :: count / 256 ::
    (frames.take maxCoords).flatMap (fun f => coordWire (sentinelize f))

/-- `CompactRunMetadata` (render_compact_runs.rs lines 85-90): sprite id,
declared coordinate count, and the byte offset (in the decoded stream) where
the run's coordinate payload starts. -/
structure RunMeta where
  spriteId : Nat
  coordCount : Nat
  fileOffset : Nat
deriving DecidableEq

instance : Inhabited RunMeta := ⟨⟨0, 0, 0⟩⟩

/-- `load_compact_runs_metadata` (render_compact_runs.rs lines 395-449) on the
decoded byte stream, carrying `current_offset`.  A clean end of stream at a
record boundary ends the scan (lines 414-417); a truncated header or payload
(`read_exact` failing mid-record) is an error, modelled as `none`. -/
def loadMetaGo : List Nat → Nat → Option (List RunMeta)
  | [], _ => some []
  | sid :: c0 :: c1 :: bs, off =>
      let count := c0 + 256 * c1
      if count * 3 ≤ bs.length then
        (loadMetaGo (bs.drop (count * 3)) (off + 3 + count * 3)).map
          (fun ms => ⟨sid, count, off + 3⟩ :: ms)
      else none
  | _, _ => none
termination_by bs _ => bs.length
decreasing_by
  simp only [List.length_cons, List.length_drop]
  omega

/-- `load_compact_runs_metadata` from the start of the stream. -/
def loadCompactRunsMetadata (bs : List Nat) : Option (List RunMeta) :=
  loadMetaGo bs 0

/-- `read_exact` into a buffer of n bytes from a sequential reader: fails when
fewer than n bytes remain, otherwise yields the n bytes and the rest. -/
def readN (n : Nat) (bs : List Nat) : Option (List Nat × List Nat) :=
  if n ≤ bs.length then some (bs.take n, bs.drop n) else none

/-- Reassembling `UltraCompactCoordMem`s from an exact byte buffer, three
bytes per coordinate (render_compact_runs.rs lines 506-512). -/
def bytesToCoords : List Nat → List CCoord
  | x :: y :: m :: r => ⟨x, y, m⟩ :: bytesToCoords r
  | _ => []

/-- `CompactRun` (render_compact_runs.rs lines 79-83): one run as materialised
by `load_chunk_coords`. -/
structure LoadedRun where
  spriteId : Nat
  coords : List CCoord
deriving DecidableEq

instance : Inhabited LoadedRun := ⟨⟨0, []⟩⟩

/-- `load_chunk_coords` (render_compact_runs.rs lines 451-530) on the decoded
byte stream: for each metadata entry, skip forward to its recorded offset,
skip the coordinates before `chunk_start`, materialise the coordinates in
`[min chunk_start count, min chunk_end count)`, and skip the coordinates after
`chunk_end`; any short read is an error. -/
def loadChunkGo (chunkStart chunkEnd : Nat) :
    List RunMeta → List Nat → Nat → Option (List LoadedRun)
  | [], _, _ => some []
  | m :: ms, bs, pos =>
      match readN (m.fileOffset - pos) bs with
      | none => none
      | some (_, bs1) =>
        let pos1 := if pos < m.fileOffset then m.fileOffset else pos
        let runChunkStart := min chunkStart m.coordCount
        let runChunkEnd := min chunkEnd m.coordCount
        let coordsToLoad := runChunkEnd - runChunkStart
        match readN (runChunkStart * 3) bs1 with
        | none => none
        | some (_, bs2) =>
          match readN (coordsToLoad * 3) bs2 with
          | none => none
          | some (coordBuf, bs3) =>
            match readN ((m.coordCount - runChunkEnd) * 3) bs3 with
            | none => none
            | some (_, bs4) =>
              (loadChunkGo chunkStart chunkEnd ms bs4
                  (pos1 + runChunkStart * 3 + coordsToLoad * 3 +
                    (m.coordCount - runChunkEnd) * 3)).map
                (fun rs => ⟨m.spriteId, bytesToCoords coordBuf⟩ :: rs)

/-- `metadata.iter().map(|m| m.coord_count).max()` (render_compact_runs.rs
line 127), with 0 for an empty list. -/
def maxCoordCount (ms : List RunMeta) : Nat :=
  ms.foldr (fun m a => max m.coordCount a) 0

/-- A full decode of a compact run file, as the render tool performs it:
metadata scan, then `load_chunk_coords` over the whole index range
`[0, max coord count)`. -/
def decodeFull (bs : List Nat) : Option (List LoadedRun) :=
  match loadCompactRunsMetadata bs with
  | none => none
  | some metas => loadChunkGo 0 (maxCoordCount metas) metas bs 0

/-! ## Animation interpolator (src/animation/interpolator.rs) -/

/-- `Direction` (sprite_data.rs lines 3-9). -/
inductive Direction where
  | down
  | up
  | left
  | right
deriving DecidableEq

instance : Inhabited Direction := ⟨Direction.down⟩

/-- `Direction::from_movement` (sprite_data.rs lines 32-46). -/
def Direction.from_movement (dx dy : ℚ) : Direction :=
  if |dx| > |dy| then
    if dx > 0 then Direction.right else Direction.left
  else
    if dy > 0 then Direction.down else Direction.up

/-- `AnimationState` (sprite_data.rs lines 83-88). -/
structure AnimState where
  currentFrameIndex : Nat
  nextFrameIndex : Nat
  interpolationT : ℚ
deriving DecidableEq

/-- `AnimationInterpolator::get_animation_state` (interpolator.rs lines
19-40); only the length of `sequence.frames` is read.  `floor() as usize` is
`Rat.floor` followed by `toNat` (both truncate negative values to 0 the same
way for the nonnegative times used), and `fract()` is `p - p.floor` for the
nonnegative `p` arising here. -/
def get_animation_state (intervalMs : ℚ) (framesLen : Nat) (timeMs : ℚ) :
    Option AnimState :=
  if framesLen = 0 then none
  else
    let pointIndexF := timeMs / intervalMs
    let currentFrameIndex := pointIndexF.floor.toNat
    if framesLen ≤ currentFrameIndex then none
    else
      some ⟨currentFrameIndex, min (currentFrameIndex + 1) (framesLen - 1),
        pointIndexF - (pointIndexF.floor : ℚ)⟩

/-- `SpriteInstance` (sprite_data.rs lines 76-81). -/
structure SpriteInst where
  position : ℚ × ℚ
  spriteId : Nat
  direction : Direction
deriving DecidableEq

/-- `AnimationInterpolator::interpolate_sprite` (interpolator.rs lines 43-90):
map current and next frame through the coordinate mapper, suppress
interpolation when the Chebyshev pixel distance exceeds 16 (one tile), lerp,
and derive the facing direction from the raw movement delta. -/
def interpolate_sprite (regions : Int → Option (ℚ × ℚ)) (spriteId : Nat)
    (frames : List Frame) (st : AnimState) : Option SpriteInst :=
  if frames.length ≤ st.currentFrameIndex then none
  else
    let currentFrame := frames.getD st.currentFrameIndex default
    let nextFrame := frames.getD st.nextFrameIndex default
    let currentPos := convert_coords regions currentFrame.coords
    let nextPos := convert_coords regions nextFrame.coords
    let pixelDx := |nextPos.1 - currentPos.1|
    let pixelDy := |nextPos.2 - currentPos.2|
    let pixelDistance := max pixelDx pixelDy
    let shouldInterpolate := pixelDistance ≤ 16
    let t := if shouldInterpolate then st.interpolationT else 0
    some ⟨(currentPos.1 + (nextPos.1 - currentPos.1) * t,
           currentPos.2 + (nextPos.2 - currentPos.2) * t),
          spriteId,
          Direction.from_movement (nextPos.1 - currentPos.1) (nextPos.2 - currentPos.2)⟩

/-! ## Windowed run player (src/bin/render_compact_runs.rs `run`) -/

/-- The per-frame environment of the windowed player loop: the region table,
`effective_interval_ms`, and the bounds of the currently resident chunk
window (render_compact_runs.rs lines 198-227). -/
structure PlayerEnv where
  regions : Int → Option (ℚ × ℚ)
  effectiveIntervalMs : ℚ
  loadedChunkStart : Nat
  loadedChunkEnd : Nat

/-- The body of the per-run loop of one output frame (render_compact_runs.rs
lines 232-326), for one run: from the elapsed time and the run's random phase
offset compute `progress`, `coord_index` (`as usize` truncation, `Rat.floor`
plus `toNat` for the nonnegative values arising), and `interpolation_t`; the
run contributes no instance when it is finished, outside the resident window,
or maps to the invalid sentinel; otherwise interpolation is suppressed beyond
3 tiles (48 px, Manhattan distance), the sprite position is the lerp minus the
(8, 8) centering offset, and the remembered direction is updated only when the
delta exceeds 0.1 px.  Returns the optional emitted position and the updated
remembered direction. -/
def playerStep (env : PlayerEnv) (timeMs runOffset : ℚ) (totalCoords : Nat)
    (run : LoadedRun) (dir : Direction) : Option (ℚ × ℚ) × Direction :=
  let progress := timeMs / env.effectiveIntervalMs + runOffset
  let coordIndex := progress.floor.toNat
  if totalCoords ≤ coordIndex then (none, dir)
  else if coordIndex < env.loadedChunkStart ∨ env.loadedChunkEnd ≤ coordIndex then (none, dir)
  else
    let localCoordIndex := coordIndex - env.loadedChunkStart
    if run.coords.length ≤ localCoordIndex then (none, dir)
    else
      let nextIndex := min (coordIndex + 1) (totalCoords - 1)
      let localNextIndex :=
        if nextIndex < env.loadedChunkEnd then nextIndex - env.loadedChunkStart
        else localCoordIndex
      let interpolationT := progress - (progress.floor : ℚ)
      let currentCoord := run.coords.getD localCoordIndex default
      let nextCoord := run.coords.getD localNextIndex default
      let currentPos :=
        convert_coords env.regions ((currentCoord.x : Int), (currentCoord.y : Int), (currentCoord.mapId : Int))
      let nextPos :=
        convert_coords env.regions ((nextCoord.x : Int), (nextCoord.y : Int), (nextCoord.mapId : Int))
      if currentPos = INVALID_MAP_ID_FLAG ∨ nextPos = INVALID_MAP_ID_FLAG then (none, dir)
      else
        let pixelDistance := |nextPos.1 - currentPos.1| + |nextPos.2 - currentPos.2|
        let interpT := if pixelDistance ≤ 3 * 16 then interpolationT else 0
        let position := (currentPos.1 + (nextPos.1 - currentPos.1) * interpT - 8,
                         currentPos.2 + (nextPos.2 - currentPos.2) * interpT - 8)
        let dx := nextPos.1 - currentPos.1
        let dy := nextPos.2 - currentPos.2
        let newDir := if |dx| > 0.1 ∨ |dy| > 0.1 then Direction.from_movement dx dy else dir
        (some position, newDir)

/-! ## Per-input write / flush ordering (extract_compact_runs.rs `main`) -/

/-- The observable file-writing calls that `main` makes while processing one
source input whose frames parse: `write_compact_run` into the run output file
for each emitted run (lines 317-322 and 338-343), then
`writeln!(progress_writer, ...)` (line 353), `progress_writer.flush()`
(line 354), and `output_file.flush()` (line 357). -/
inductive ExtractEvent where
  | writeRun (run : List Frame)
  | appendLedger
  | flushLedger
  | flushOutput
deriving DecidableEq

/-- The trace of file-writing calls `main` performs for one source input, in
program order (lines 203-358): all emitted-run writes during segmentation,
then the ledger append, the ledger flush, and the output-file flush. -/
def processInputTrace (cfg : ExtractConfig) (frames : List Frame) : List ExtractEvent :=
  (segmentAll cfg frames).map ExtractEvent.writeRun ++
    [ExtractEvent.appendLedger, ExtractEvent.flushLedger, ExtractEvent.flushOutput]

/-- The u16 little-endian count field of an encoded record's byte list. -/
def countField (bs : List Nat) : Nat :=
  bs.getD 1 0 + 256 * bs.getD 2 0

/-- Modelled from the spec: the squared straight-line pixel displacement of a
run's sample `k` from the run's first sample, both through the coordinate
mapper — the reading of the phrase "cumulative pixel displacement since run
start" in the spec's early-teleport rule; the code has no such quantity, which
claim C9 is about. -/
def specCumDispSq (regions : Int → Option (ℚ × ℚ)) (r : List Frame) (k : Nat) : ℚ :=
  let p0 := convert_coords regions (r.getD 0 default).coords
  let pk := convert_coords regions (r.getD k default).coords
  (pk.1 - p0.1) * (pk.1 - p0.1) + (pk.2 - p0.2) * (pk.2 - p0.2)


/-! ## Concrete inputs used by witnesses and counterexamples -/

/-- A small region table: region 40 (Pallet Town) at offset (0, 0). -/
def wRegions : Int → Option (ℚ × ℚ) := fun i => if i = 40 then some (0, 0) else none

/-- Extraction configuration with the CLI defaults (60 s minimum duration,
2000 max coordinates) and strict mode on. -/
def wCfg : ExtractConfig :=
  { minDurationMs := 60000, maxCoordsPerRun := 2000, palletStartOnly := true,
    warpTable := fun _ _ => false, regions := wRegions }

/-- A sample of one fixed (user, session) walking along y = 0 on map 40. -/
def wFrame (t x : Int) : Frame := ⟨t, 1, 1, 3, x, 0, 40, 0⟩

/-- Three samples 30 s apart, one tile of movement each. -/
def wStream : List Frame := [wFrame 0 0, wFrame 30000 1, wFrame 60000 2]

/-- Two frames whose every transition stays valid: used to build one record.
The second frame's x component 300 does not fit a byte, so its coordinate is
sentinelized on encode. -/
def wEncFrames : List Frame := [⟨0, 1, 1, 3, 5, 3, 40, 0⟩, ⟨1000, 1, 1, 3, 300, 2, 40, 1⟩]

/-- A frame whose coordinate triple (7, 8, 9) fits in bytes. -/
def wBigFrame : Frame := ⟨0, 1, 1, 3, 7, 8, 9, 0⟩

/-- A run of 65536 samples: `frames.len().min(max_coords) as u16` wraps to 0
on it when `max_coords` is configured at 65536 or above. -/
def wBigRun : List Frame := List.replicate 65536 wBigFrame

/-- A well-formed two-record compact run file:
record 1 = sprite 7, 2 coordinates; record 2 = sprite 9, 1 coordinate. -/
def wFileBytes : List Nat := [7, 2, 0, 5, 3, 40, 0, 0, 255, 9, 1, 0, 1, 2, 3]

/-- Region table for the playback scenario: region 1 at offset
(217.5, 221.5), cancelling the centering constants. -/
def w7Regions : Int → Option (ℚ × ℚ) := fun i => if i = 1 then some (217.5, 221.5) else none

/-- The two samples of the spec's playback scenario: (0,0,region 1) at t=0 ms
and (10,0,region 1) at t=500 ms. -/
def w7Frames : List Frame := [⟨0, 1, 1, 0, 0, 0, 1, 0⟩, ⟨500, 1, 1, 0, 10, 0, 1, 1⟩]

/-- Player environment for the window-end scenario: 125 ms effective
interval, resident window [0, 3). -/
def wEnv : PlayerEnv := ⟨w7Regions, 125, 0, 3⟩

/-- The loaded slice of a 10-coordinate run, coordinates 0..2 resident. -/
def wLoadedRun : LoadedRun := ⟨3, [⟨0, 0, 1⟩, ⟨1, 0, 1⟩, ⟨2, 0, 1⟩]⟩


/-! ## Theorems -/

/-- Claim C8: the coordinate mapper is a pure function (it is a Lean function
of its table and inputs, hence deterministic and bit-for-bit reproducible);
for a region id present in the table it returns the local coordinate plus the
region offset minus the fixed center constants (217.5, 221.5), times the tile
size 16, translated by +4096 into the canvas's top-left origin; for a region
id absent from the table it returns the invalid-position sentinel (it is a
total function, so it never crashes). -/
theorem convert_coords_spec (regions : Int → Option (ℚ × ℚ)) (x y id : Int) :
    (∀ mx my, regions id = some (mx, my) →
      convert_coords regions (x, y, id) =
        (((x : ℚ) + mx - 217.5) * 16 + 4096, ((y : ℚ) + my - 221.5) * 16 + 4096)) ∧
    (regions id = none → convert_coords regions (x, y, id) = INVALID_MAP_ID_FLAG) := by
  constructor
  · intro mx my h
    simp [convert_coords, h]
  · intro h
    simp [convert_coords, h]

/-- Witness for C8, at the inputs of the Rust unit test
`test_coordinate_conversion`: region 1 at offset (500, 600) maps
(10, 20, 1) to ((10 + 500 - 217.5) * 16 + 4096, (20 + 600 - 221.5) * 16 + 4096)
= (8776, 10472), and the unknown id 2 maps to the sentinel. -/
theorem convert_coords_spec_witness :
    convert_coords (fun i => if i = 1 then some (500, 600) else none) (10, 20, 1)
      = (8776, 10472) ∧
    convert_coords (fun i => if i = 1 then some (500, 600) else none) (10, 20, 2)
      = INVALID_MAP_ID_FLAG := by
  constructor
  · have h := (convert_coords_spec
      (fun i => if i = 1 then some (500, 600) else none) 10 20 1).1 500 600 (by simp)
    rw [h]
    norm_num
  · exact (convert_coords_spec
      (fun i => if i = 1 then some (500, 600) else none) 10 20 2).2 (by simp)


/-! ### Helper facts about the split loop -/

theorem getLast?_eq_some_getLast! (l : List Frame) (h : l ≠ []) :
    l.getLast? = some l.getLast! := by
  cases l with
  | nil => exact absurd rfl h
  | cons a t =>
      rw [List.getLast!_cons, List.getLast?_cons, List.getLastD_eq_getLast?]

/-- A temporal gap of at least the threshold makes the split predicate fire,
whatever every other rule computes. -/
theorem shouldSplit_of_gap (cfg : ExtractConfig) (stepCount progress : Nat)
    (prev curr : Frame) (h : gapThresholdMs ≤ curr.timestamp - prev.timestamp) :
    shouldSplit cfg stepCount progress prev curr = true := by
  simp [shouldSplit, h]

/-- Invariant of the split loop: every run it emits is nonempty, lasts at
least `min_duration`, and contains no adjacent pair separated by a temporal
gap reaching the threshold. -/
theorem segGo_emitted_inv (cfg : ExtractConfig) :
    ∀ (stream run : List Frame) (progress : Nat),
      run ≠ [] →
      List.Chain' (fun a b => b.timestamp - a.timestamp < gapThresholdMs) run →
      ∀ r ∈ segGo cfg run progress stream,
        r ≠ [] ∧ cfg.minDurationMs ≤ r.getLast!.timestamp - r.head!.timestamp ∧
          List.Chain' (fun a b => b.timestamp - a.timestamp < gapThresholdMs) r := by
  intro stream
  induction stream with
  | nil =>
      intro run progress hne hch r hr
      simp only [segGo] at hr
      split at hr
      case isTrue hcond =>
        rw [Bool.and_eq_true, decide_eq_true_eq] at hcond
        simp only [List.mem_singleton] at hr
        subst hr
        exact ⟨hne, hcond.1, hch⟩
      case isFalse hcond => simp at hr
  | cons curr rest ih =>
      intro run progress hne hch r hr
      simp only [segGo] at hr
      by_cases hs : shouldSplit cfg run.length progress run.getLast! curr = true
      · rw [if_pos hs, List.mem_append] at hr
        rcases hr with hr | hr
        · split at hr
          next hcond =>
            rw [Bool.and_eq_true, Bool.and_eq_true, decide_eq_true_eq] at hcond
            simp only [List.mem_singleton] at hr
            subst hr
            exact ⟨hne, hcond.1.1, hch⟩
          next hcond => simp at hr
        · exact ih [curr] requiredOrderInitIdx (by simp) (by simp) r hr
      · rw [if_neg hs] at hr
        have hgap : curr.timestamp - run.getLast!.timestamp < gapThresholdMs := by
          by_contra hle
          exact hs (shouldSplit_of_gap cfg run.length progress run.getLast! curr (by omega))
        refine ih (run ++ [curr]) _ (by simp) ?_ r hr
        refine List.Chain'.append hch (List.chain'_singleton curr) ?_
        intro a ha b hb
        rw [getLast?_eq_some_getLast! run hne] at ha
        simp only [Option.mem_def, Option.some_inj, List.head?_cons] at ha hb
        subst ha
        cases hb
        exact hgap

/-- The same invariant lifted to the grouped outer loop. -/
theorem segmentAll_emitted_inv (cfg : ExtractConfig) :
    ∀ (frames : List Frame), ∀ r ∈ segmentAll cfg frames,
      r ≠ [] ∧ cfg.minDurationMs ≤ r.getLast!.timestamp - r.head!.timestamp ∧
        List.Chain' (fun a b => b.timestamp - a.timestamp < gapThresholdMs) r := by
  have hgrp : ∀ (g : List Frame), ∀ r ∈ segmentGroup cfg g,
      r ≠ [] ∧ cfg.minDurationMs ≤ r.getLast!.timestamp - r.head!.timestamp ∧
        List.Chain' (fun a b => b.timestamp - a.timestamp < gapThresholdMs) r := by
    intro g r hr
    cases g with
    | nil => simp [segmentGroup] at hr
    | cons f rest =>
        exact segGo_emitted_inv cfg rest [f] requiredOrderInitIdx (by simp) (by simp) r hr
  have hgo : ∀ (stream : List Frame) (first : Frame) (grpTailRev : List Frame),
      ∀ r ∈ segAllGo cfg first grpTailRev stream,
        r ≠ [] ∧ cfg.minDurationMs ≤ r.getLast!.timestamp - r.head!.timestamp ∧
          List.Chain' (fun a b => b.timestamp - a.timestamp < gapThresholdMs) r := by
    intro stream
    induction stream with
    | nil => intro first grpTailRev r hr; exact hgrp _ r hr
    | cons g gs ih =>
        intro first grpTailRev r hr
        simp only [segAllGo] at hr
        split at hr
        · exact ih first (g :: grpTailRev) r hr
        · rw [List.mem_append] at hr
          rcases hr with hr | hr
          · exact hgrp _ r hr
          · exact ih g [] r hr
  intro frames r hr
  cases frames with
  | nil => simp [segmentAll] at hr
  | cons f fs => exact hgo fs f [] r hr

/-- Claim C1: every run the segmenter writes to the output file — finalized
either at a split point or at stream end — satisfies
`last_timestamp - first_timestamp >= min_duration`. -/
theorem emitted_run_min_duration (cfg : ExtractConfig) (frames : List Frame) :
    ∀ r ∈ segmentAll cfg frames,
      r ≠ [] ∧ cfg.minDurationMs ≤ r.getLast!.timestamp - r.head!.timestamp := by
  intro r hr
  exact ⟨(segmentAll_emitted_inv cfg frames r hr).1,
    (segmentAll_emitted_inv cfg frames r hr).2.1⟩

/-- Witness for C1: the three-sample stream is emitted as one run and lasts
exactly the 60 s minimum. -/
theorem emitted_run_min_duration_witness :
    wStream ∈ segmentAll wCfg wStream ∧
      (60000 : Int) ≤ wStream.getLast!.timestamp - wStream.head!.timestamp :=
  ⟨by decide, (emitted_run_min_duration wCfg wStream wStream (by decide)).2⟩

/-- Claim C6: a temporal gap of at least the threshold (2 minutes; hence in
particular a 3-minute gap) between two consecutive samples of one
(user, session) group forces a run split there, independently of what every
other split rule computes: the split predicate fires for every configuration,
step count, progress index and coordinate pair, and consequently no emitted
run contains an adjacent pair separated by a gap reaching the threshold. -/
theorem time_gap_forces_split :
    (∀ (cfg : ExtractConfig) (stepCount progress : Nat) (prev curr : Frame),
        gapThresholdMs ≤ curr.timestamp - prev.timestamp →
        shouldSplit cfg stepCount progress prev curr = true) ∧
    (∀ (cfg : ExtractConfig) (frames : List Frame), ∀ r ∈ segmentAll cfg frames,
        List.Chain' (fun a b => b.timestamp - a.timestamp < gapThresholdMs) r) := by
  constructor
  · exact shouldSplit_of_gap
  · intro cfg frames r hr
    exact (segmentAll_emitted_inv cfg frames r hr).2.2

/-- Witness for C6: a concrete 3-minute gap between two same-region samples
fires the split predicate. -/
theorem time_gap_forces_split_witness :
    shouldSplit wCfg 1 requiredOrderInitIdx (wFrame 0 0) (wFrame 180000 1) = true :=
  time_gap_forces_split.1 wCfg 1 requiredOrderInitIdx (wFrame 0 0) (wFrame 180000 1)
    (by decide)

/-- Counterexample to C9 as stated: in strict mode, the three-sample run
`wStream` is emitted even though at its third sample (index 2, within the
first 140) the cumulative pixel displacement since run start is 32 px
(squared: 1024 > 900 = 30 squared) — the code only tests the displacement of
each single step (16 px here), not the accumulated one. -/
theorem early_jump_cumulative_counterexample :
    wCfg.palletStartOnly = true ∧
    wStream ∈ segmentAll wCfg wStream ∧
    2 < 140 ∧ 2 < wStream.length ∧
    (900 : ℚ) < specCumDispSq wCfg.regions wStream 2 :=
  ⟨rfl, by decide, by decide, by decide, by decide⟩

/-- Claim C9 (amended): in strict mode, whenever a single-step pixel
displacement between the previous and current sample exceeds 30 px while the
candidate run has fewer than 140 samples, the whole candidate run is
discarded — nothing is emitted for it regardless of its duration — and the
split loop restarts at the offending sample. -/
theorem early_jump_discards_candidate (cfg : ExtractConfig)
    (run : List Frame) (progress : Nat) (curr : Frame) (rest : List Frame)
    (hstrict : cfg.palletStartOnly = true)
    (hlen : run.length < 140)
    (hjump : (900 : ℚ) < stepDeltaSq cfg.regions run.getLast! curr) :
    segGo cfg run progress (curr :: rest) = segGo cfg [curr] requiredOrderInitIdx rest := by
  have hef : earlyBigJumpFail cfg run.length run.getLast! curr = true := by
    simp [earlyBigJumpFail, hstrict, hlen, hjump]
  have hs : shouldSplit cfg run.length progress run.getLast! curr = true := by
    simp [shouldSplit, hef]
  simp [segGo, hs, hef]

/-- Witness for amended C9: a 3-tile (48 px) jump at the second sample
discards the one-sample candidate and restarts at the jump target. -/
theorem early_jump_discards_candidate_witness :
    segGo wCfg [wFrame 0 0] requiredOrderInitIdx [wFrame 1000 3] =
      segGo wCfg [wFrame 1000 3] requiredOrderInitIdx [] :=
  early_jump_discards_candidate wCfg [wFrame 0 0] requiredOrderInitIdx (wFrame 1000 3) []
    (by decide) (by decide) (by decide)

/-! ### Helper facts about the codec -/

theorem flatMap_coordWire_length (l : List Frame) :
    (l.flatMap (fun f => coordWire (sentinelize f))).length = 3 * l.length := by
  induction l with
  | nil => rfl
  | cons a t ih =>
      rw [List.flatMap_cons, List.length_append, ih, coordWire]
      simp only [List.length_cons, List.length_nil]
      omega

theorem bytesToCoords_cons3 (x y m : Nat) (r : List Nat) :
    bytesToCoords (x :: y :: m :: r) = ⟨x, y, m⟩ :: bytesToCoords r := rfl

theorem coordWire_append (c : CCoord) (l : List Nat) :
    coordWire c ++ l = c.x :: c.y :: c.mapId :: l := rfl

theorem bytesToCoords_flatMap (l : List Frame) :
    bytesToCoords (l.flatMap (fun f => coordWire (sentinelize f))) = l.map sentinelize := by
  induction l with
  | nil => rfl
  | cons a t ih =>
      rw [List.flatMap_cons, coordWire_append, bytesToCoords_cons3, ih, List.map_cons]

theorem writeCompactRun_length (sid : Nat) (frames : List Frame) (maxCoords : Nat) :
    (writeCompactRun sid frames maxCoords).length = 3 + 3 * min frames.length maxCoords := by
  simp only [writeCompactRun, List.length_cons, flatMap_coordWire_length, List.length_take]
  omega

theorem countField_writeCompactRun (sid : Nat) (frames : List Frame) (maxCoords : Nat) :
    countField (writeCompactRun sid frames maxCoords) = min frames.length maxCoords % 65536 := by
  simp only [writeCompactRun, countField, List.getD_cons_succ, List.getD_cons_zero]
  exact Nat.mod_add_div _ 256

theorem readN_eq_some {n : Nat} {bs xs rest : List Nat} :
    readN n bs = some (xs, rest) ↔ n ≤ bs.length ∧ xs = bs.take n ∧ rest = bs.drop n := by
  unfold readN
  split
  next h => simp_all [eq_comm, and_comm]
  next h => simp_all

theorem bytesToCoords_length (l : List Nat) :
    (bytesToCoords l).length = l.length / 3 := by
  induction l using bytesToCoords.induct with
  | case1 x y m r ih =>
      simp only [bytesToCoords, List.length_cons, ih]
      omega
  | case2 l h =>
      match l, h with
      | [], _ => simp [bytesToCoords]
      | [x], _ => simp [bytesToCoords]
      | [x, y], _ => simp [bytesToCoords]
      | x :: y :: m :: r, h => exact absurd rfl (h x y m r)

theorem loadMetaGo_single (sid c0 c1 : Nat) (tail : List Nat) (off : Nat)
    (hlen : (c0 + 256 * c1) * 3 = tail.length) :
    loadMetaGo (sid :: c0 :: c1 :: tail) off = some [⟨sid, c0 + 256 * c1, off + 3⟩] := by
  rw [loadMetaGo]
  rw [if_pos (by omega)]
  rw [List.drop_eq_nil_of_le (by omega)]
  rw [loadMetaGo]
  rfl

theorem loadChunkGo_one (sid count : Nat) (tail : List Nat) (x0 x1 x2 : Nat)
    (hlen : count * 3 = tail.length) :
    loadChunkGo 0 count [⟨sid, count, 3⟩] (x0 :: x1 :: x2 :: tail) 0 =
      some [⟨sid, bytesToCoords tail⟩] := by
  have h1 : readN (3 - 0) (x0 :: x1 :: x2 :: tail) = some ([x0, x1, x2], tail) := by
    simp [readN]
  have h2 : readN (min 0 count * 3) tail = some ([], tail) := by
    simp [readN]
  have h3 : readN ((min count count - min 0 count) * 3) tail = some (tail, []) := by
    simp [readN, ← hlen]
  have h4 : readN ((count - min count count) * 3) ([] : List Nat) = some ([], []) := by
    simp [readN]
  simp only [loadChunkGo, h1, h2, h3, h4]
  rfl

theorem writeCompactRun_eq (sid : Nat) (frames : List Frame) (maxCoords : Nat)
    (h : min frames.length maxCoords < 65536) :
    writeCompactRun sid frames maxCoords =
      sid :: min frames.length maxCoords % 256 :: min frames.length maxCoords / 256 ::
        (frames.take maxCoords).flatMap (fun f => coordWire (sentinelize f)) := by
  simp only [writeCompactRun, Nat.mod_eq_of_lt h]

/-- Claim C3 (amended): for every run and every `max_coords_per_run`, as long
as `min(run length, max_coords)` fits the u16 count field (below 65536 — in
particular always under the 2000 default), encoding the run and fully decoding
the file reproduces the sprite id and the coordinate sequence, its length
capped at `max_coords_per_run`, with every coordinate having any component
outside 0-255 replaced as a whole by the (0, 0, 255) sentinel. -/
theorem encode_decode_roundtrip (sid : Nat) (frames : List Frame) (maxCoords : Nat)
    (h : min frames.length maxCoords < 65536) :
    decodeFull (writeCompactRun sid frames maxCoords) =
      some [⟨sid, (frames.take maxCoords).map sentinelize⟩] := by
  have htlen : min frames.length maxCoords * 3 =
      ((frames.take maxCoords).flatMap (fun f => coordWire (sentinelize f))).length := by
    rw [flatMap_coordWire_length, List.length_take]
    omega
  have hrec : min frames.length maxCoords % 256 +
      256 * (min frames.length maxCoords / 256) = min frames.length maxCoords :=
    Nat.mod_add_div _ 256
  have hmeta : loadCompactRunsMetadata (writeCompactRun sid frames maxCoords) =
      some [⟨sid, min frames.length maxCoords, 3⟩] := by
    rw [writeCompactRun_eq sid frames maxCoords h]
    unfold loadCompactRunsMetadata
    rw [loadMetaGo_single _ _ _ _ _ (by rw [hrec]; exact htlen)]
    rw [hrec]
  unfold decodeFull
  rw [hmeta]
  dsimp only
  have hmax : maxCoordCount [⟨sid, min frames.length maxCoords, 3⟩] =
      min frames.length maxCoords := by
    simp [maxCoordCount]
  rw [hmax, writeCompactRun_eq sid frames maxCoords h,
    loadChunkGo_one _ _ _ _ _ _ htlen, bytesToCoords_flatMap]

/-- Witness for amended C3: a two-sample run whose second coordinate has an
out-of-range x component round-trips to the in-range coordinate followed by
the sentinel. -/
theorem encode_decode_roundtrip_witness :
    min wEncFrames.length 2000 < 65536 ∧
      decodeFull (writeCompactRun 7 wEncFrames 2000) =
        some [⟨7, (wEncFrames.take 2000).map sentinelize⟩] :=
  ⟨by decide, encode_decode_roundtrip 7 wEncFrames 2000 (by decide)⟩

theorem loadChunkGo_cons_inv (cs ce : Nat) (m : RunMeta) (ms : List RunMeta)
    (bs : List Nat) (pos : Nat) (rs : List LoadedRun)
    (h : loadChunkGo cs ce (m :: ms) bs pos = some rs) :
    ∃ r rs', rs = r :: rs' ∧
      r.coords.length = min ce m.coordCount - min cs m.coordCount ∧
      ∃ bs' pos', loadChunkGo cs ce ms bs' pos' = some rs' := by
  simp only [loadChunkGo] at h
  split at h
  · exact absurd h (by simp)
  next x1 bs1 hr1 =>
    split at h
    · exact absurd h (by simp)
    next x2 bs2 hr2 =>
      split at h
      · exact absurd h (by simp)
      next coordBuf bs3 hr3 =>
        split at h
        · exact absurd h (by simp)
        next x4 bs4 hr4 =>
          cases hrec : loadChunkGo cs ce ms bs4
              ((if pos < m.fileOffset then m.fileOffset else pos) +
                min cs m.coordCount * 3 + (min ce m.coordCount - min cs m.coordCount) * 3 +
                (m.coordCount - min ce m.coordCount) * 3) with
          | none =>
              rw [hrec] at h
              exact absurd h (by simp)
          | some rs' =>
              rw [hrec] at h
              simp only [Option.map] at h
              cases h
              refine ⟨_, rs', rfl, ?_, bs4, _, hrec⟩
              rcases readN_eq_some.mp hr3 with ⟨hle, hbuf, _⟩
              simp only [hbuf, bytesToCoords_length, List.length_take]
              omega

theorem loadChunkGo_length (cs ce : Nat) :
    ∀ (ms : List RunMeta) (bs : List Nat) (pos : Nat) (rs : List LoadedRun),
      loadChunkGo cs ce ms bs pos = some rs → rs.length = ms.length := by
  intro ms
  induction ms with
  | nil =>
      intro bs pos rs h
      simp only [loadChunkGo] at h
      cases h
      rfl
  | cons m ms ih =>
      intro bs pos rs h
      rcases loadChunkGo_cons_inv cs ce m ms bs pos rs h with
        ⟨r, rs', rfl, _, bs', pos', hrec⟩
      simp only [List.length_cons, ih bs' pos' rs' hrec]

theorem decodeFull_eq_some (bs : List Nat) (rs : List LoadedRun)
    (h : decodeFull bs = some rs) :
    ∃ metas, loadCompactRunsMetadata bs = some metas ∧
      loadChunkGo 0 (maxCoordCount metas) metas bs 0 = some rs := by
  unfold decodeFull at h
  cases hm : loadCompactRunsMetadata bs with
  | none => rw [hm] at h; exact absurd h (by simp)
  | some metas => rw [hm] at h; exact ⟨metas, rfl, h⟩

/-- Counterexample to C3 as stated (for every configured `max_coords_per_run`):
with `max_coords_per_run = 65536` and a 65536-sample run, the `as u16` cast
wraps the count field to 0, so the full decode cannot reproduce the capped
coordinate sequence. -/
theorem roundtrip_counterexample :
    decodeFull (writeCompactRun 5 wBigRun 65536) ≠
      some [⟨5, (wBigRun.take 65536).map sentinelize⟩] := by
  intro hEq
  have hlen : wBigRun.length = 65536 := by
    rw [wBigRun, List.length_replicate]
  have hbytes : writeCompactRun 5 wBigRun 65536 =
      5 :: 0 :: 0 :: (wBigRun.take 65536).flatMap (fun f => coordWire (sentinelize f)) := by
    simp only [writeCompactRun, hlen]
    norm_num
  have hstep : loadMetaGo
      (5 :: 0 :: 0 :: (wBigRun.take 65536).flatMap (fun f => coordWire (sentinelize f))) 0 =
      (loadMetaGo ((wBigRun.take 65536).flatMap (fun f => coordWire (sentinelize f))) 3).map
        (fun ms => (⟨5, 0, 3⟩ : RunMeta) :: ms) := by
    rw [loadMetaGo]
    simp
  rcases decodeFull_eq_some _ _ hEq with ⟨metas, hm, hchunk⟩
  have hlen1 : metas.length = 1 :=
    (loadChunkGo_length 0 (maxCoordCount metas) metas _ 0 _ hchunk).symm
  rw [hbytes] at hm
  unfold loadCompactRunsMetadata at hm
  rw [hstep] at hm
  cases hm2 : loadMetaGo
      ((wBigRun.take 65536).flatMap (fun f => coordWire (sentinelize f))) 3 with
  | none => rw [hm2] at hm; exact absurd hm (by simp)
  | some ms' =>
      rw [hm2] at hm
      simp only [Option.map] at hm
      cases hm
      rcases loadChunkGo_cons_inv _ _ _ _ _ _ _ hchunk with ⟨r, rs', hcons, hrlen, _⟩
      cases hcons
      simp only [Nat.min_zero, Nat.zero_sub, List.length_map, List.length_take,
        hlen] at hrlen
      omega

/-- Counterexample to C4 as stated (for every configured maximum): with
`max_coords_per_run = 65536` and a 65536-sample run, 65536 coordinates are
written after the header but the u16 little-endian count field wraps to 0. -/
theorem count_field_counterexample :
    countField (writeCompactRun 5 wBigRun 65536) = 0 ∧
    ((writeCompactRun 5 wBigRun 65536).length - 3) / 3 = 65536 ∧
    (0 : Nat) ≠ 65536 := by
  have hlen : wBigRun.length = 65536 := by
    rw [wBigRun, List.length_replicate]
  refine ⟨?_, ?_, by decide⟩
  · rw [countField_writeCompactRun, hlen]
    norm_num
  · rw [writeCompactRun_length, hlen]
    norm_num

/-- Claim C4 (amended): for every encoded CompactRun record whose
`min(run length, max_coords_per_run)` fits the u16 field (below 65536 — in
particular always under the 2000 default), the little-endian count field
equals the number of 3-byte coordinates written after it, and that count
never exceeds the configured maximum (excess samples are truncated from the
tail: exactly `min(run length, max)` coordinates are written, never a second
record). -/
theorem count_field_matches_coords (sid : Nat) (frames : List Frame) (maxCoords : Nat)
    (h : min frames.length maxCoords < 65536) :
    countField (writeCompactRun sid frames maxCoords) * 3 =
      (writeCompactRun sid frames maxCoords).length - 3 ∧
    countField (writeCompactRun sid frames maxCoords) ≤ maxCoords := by
  rw [countField_writeCompactRun, writeCompactRun_length, Nat.mod_eq_of_lt h]
  omega

/-- Witness for amended C4: the two-sample record under the default maximum
2000 declares 2 coordinates, matching the 6 coordinate bytes written. -/
theorem count_field_matches_coords_witness :
    min wEncFrames.length 2000 < 65536 ∧
      countField (writeCompactRun 7 wEncFrames 2000) * 3 =
        (writeCompactRun 7 wEncFrames 2000).length - 3 ∧
      countField (writeCompactRun 7 wEncFrames 2000) ≤ 2000 :=
  ⟨by decide, count_field_matches_coords 7 wEncFrames 2000 (by decide)⟩

theorem drop_cons3 (a b c : Nat) (l : List Nat) (n : Nat) (h : 3 ≤ n) :
    (a :: b :: c :: l).drop n = l.drop (n - 3) := by
  have h3 : (a :: b :: c :: l).drop n = ((a :: b :: c :: l).drop 3).drop (n - 3) := by
    rw [List.drop_drop]
    congr 1
    omega
  rw [h3]
  rfl

theorem loadMetaGo_offsets :
    ∀ (suffix : List Nat) (off : Nat) (metas : List RunMeta),
      loadMetaGo suffix off = some metas →
      ∀ m ∈ metas, off + 3 ≤ m.fileOffset := by
  intro suffix off
  induction suffix, off using loadMetaGo.induct with
  | case1 off =>
      intro metas h m hm
      simp only [loadMetaGo] at h
      cases h
      simp at hm
  | case2 sid c0 c1 bs off count hcond ih =>
      intro metas h m hm
      simp only [loadMetaGo] at h
      rw [if_pos hcond] at h
      cases hrec : loadMetaGo (bs.drop ((c0 + 256 * c1) * 3)) (off + 3 + (c0 + 256 * c1) * 3) with
      | none => rw [hrec] at h; exact absurd h (by simp)
      | some ms =>
          rw [hrec] at h
          simp only [Option.map] at h
          cases h
          rcases List.mem_cons.mp hm with rfl | hm'
          · simp
          · have := ih ms hrec m hm'
            omega
  | case3 sid c0 c1 bs off count hcond =>
      intro metas h m hm
      simp only [loadMetaGo] at h
      rw [if_neg hcond] at h
      exact absurd h (by simp)
  | case4 l off h1 h2 =>
      intro metas h m hm
      match l, h1, h2 with
      | [], h1, _ => exact absurd rfl h1
      | [x], _, _ => simp [loadMetaGo] at h
      | [x, y], _, _ => simp [loadMetaGo] at h
      | x :: y :: z :: r, _, h2 => exact absurd rfl (h2 x y z r)

theorem le_maxCoordCount : ∀ (ms : List RunMeta), ∀ m ∈ ms, m.coordCount ≤ maxCoordCount ms := by
  intro ms
  induction ms with
  | nil => simp
  | cons a t ih =>
      intro m hm
      rcases List.mem_cons.mp hm with rfl | hm'
      · exact le_max_left _ _
      · exact le_trans (ih m hm') (le_max_right _ _)

theorem forall₂_imp_mem {R S : RunMeta → LoadedRun → Prop} :
    ∀ {ms : List RunMeta} {rs : List LoadedRun},
      List.Forall₂ R ms rs → (∀ m ∈ ms, ∀ r, R m r → S m r) → List.Forall₂ S ms rs := by
  intro ms rs h
  induction h with
  | nil => intro _; exact List.Forall₂.nil
  | cons hr ht ih =>
      intro hmem
      exact List.Forall₂.cons (hmem _ (by simp) _ hr)
        (ih fun m hm r hr' => hmem m (List.mem_cons_of_mem _ hm) r hr')

theorem loadChunkGo_cons_step (ce sid count b0 b1 b2 : Nat) (bs : List Nat)
    (off : Nat) (ms : List RunMeta)
    (hle : count * 3 ≤ bs.length) (hce : count ≤ ce) :
    loadChunkGo 0 ce (⟨sid, count, off + 3⟩ :: ms) (b0 :: b1 :: b2 :: bs) off =
      (loadChunkGo 0 ce ms (bs.drop (count * 3)) (off + 3 + count * 3)).map
        (fun rs => ⟨sid, bytesToCoords (bs.take (count * 3))⟩ :: rs) := by
  have hmin : min ce count = count := min_eq_right hce
  have h1 : readN ((off + 3) - off) (b0 :: b1 :: b2 :: bs) = some ([b0, b1, b2], bs) := by
    have he : (off + 3) - off = 3 := by omega
    rw [he]
    simp [readN]
  have h2 : readN (min 0 count * 3) bs = some ([], bs) := by
    simp [readN]
  have h3 : readN ((min ce count - min 0 count) * 3) bs =
      some (bs.take (count * 3), bs.drop (count * 3)) := by
    simp [readN, hmin, hle]
  have h4 : readN ((count - min ce count) * 3) (bs.drop (count * 3)) =
      some ([], bs.drop (count * 3)) := by
    simp [readN, hmin]
  simp only [loadChunkGo, h1, h2, h3, h4]
  have hpos : (if off < off + 3 then off + 3 else off) = off + 3 := by simp
  rw [hpos, hmin]
  norm_num

theorem loadMeta_chunk_agree :
    ∀ (suffix : List Nat) (off : Nat) (metas : List RunMeta),
      loadMetaGo suffix off = some metas →
      ∀ ce, (∀ m ∈ metas, m.coordCount ≤ ce) →
      ∃ runs, loadChunkGo 0 ce metas suffix off = some runs ∧
        List.Forall₂
          (fun m r => r.spriteId = m.spriteId ∧ r.coords.length = m.coordCount ∧
            bytesToCoords ((suffix.drop (m.fileOffset - off)).take (m.coordCount * 3)) =
              r.coords) metas runs := by
  intro suffix off
  induction suffix, off using loadMetaGo.induct with
  | case1 off =>
      intro metas h ce hce
      simp only [loadMetaGo] at h
      cases h
      exact ⟨[], by simp only [loadChunkGo], List.Forall₂.nil⟩
  | case2 sid c0 c1 bs off count hcond ih =>
      intro metas h ce hce
      simp only [loadMetaGo] at h
      rw [if_pos hcond] at h
      cases hrec : loadMetaGo (bs.drop ((c0 + 256 * c1) * 3)) (off + 3 + (c0 + 256 * c1) * 3) with
      | none => rw [hrec] at h; exact absurd h (by simp)
      | some ms =>
          rw [hrec] at h
          simp only [Option.map] at h
          cases h
          have hce0 : c0 + 256 * c1 ≤ ce := by
            have := hce ⟨sid, c0 + 256 * c1, off + 3⟩ (by simp)
            exact this
          have hcet : ∀ m ∈ ms, m.coordCount ≤ ce := fun m hm =>
            hce m (List.mem_cons_of_mem _ hm)
          rcases ih ms hrec ce hcet with ⟨runs, hruns, hrel⟩
          refine ⟨⟨sid, bytesToCoords (bs.take ((c0 + 256 * c1) * 3))⟩ :: runs, ?_, ?_⟩
          · rw [loadChunkGo_cons_step ce sid (c0 + 256 * c1) sid c0 c1 bs off ms hcond hce0,
              hruns]
            rfl
          · refine List.Forall₂.cons ⟨rfl, ?_, ?_⟩ ?_
            · simp only [bytesToCoords_length, List.length_take]
              omega
            · have hdrop : (sid :: c0 :: c1 :: bs).drop ((off + 3) - off) = bs := by
                have he : (off + 3) - off = 3 := by omega
                rw [he]
                rfl
              rw [hdrop]
            · refine forall₂_imp_mem hrel ?_
              intro m hm r hr
              refine ⟨hr.1, hr.2.1, ?_⟩
              rw [← hr.2.2]
              congr 1
              have hoff : off + 3 + (c0 + 256 * c1) * 3 + 3 ≤ m.fileOffset :=
                loadMetaGo_offsets _ _ ms hrec m hm
              congr 1
              rw [drop_cons3 _ _ _ _ _ (by omega), List.drop_drop]
              congr 1
              omega
  | case3 sid c0 c1 bs off count hcond =>
      intro metas h ce hce
      simp only [loadMetaGo] at h
      rw [if_neg hcond] at h
      exact absurd h (by simp)
  | case4 l off h1 h2 =>
      intro metas h ce hce
      match l, h1, h2 with
      | [], h1, _ => exact absurd rfl h1
      | [x], _, _ => simp [loadMetaGo] at h
      | [x, y], _, _ => simp [loadMetaGo] at h
      | x :: y :: z :: r, _, h2 => exact absurd rfl (h2 x y z r)

/-- Claim C5: for every well-formed compact run file (one on which the
metadata-only scan succeeds), the full decode (the metadata entries driving
`load_chunk_coords` over the whole index range) succeeds and yields the same
number of runs, with the same sprite id and coordinate count per run as the
scan, and re-reading the decoded byte stream from the beginning and taking
`coord_count * 3` bytes from each run's recorded offset yields exactly that
run's coordinate bytes. -/
theorem metadata_scan_agrees_full_decode (bs : List Nat) (metas : List RunMeta)
    (h : loadCompactRunsMetadata bs = some metas) :
    ∃ runs, loadChunkGo 0 (maxCoordCount metas) metas bs 0 = some runs ∧
      runs.length = metas.length ∧
      List.Forall₂
        (fun m r => r.spriteId = m.spriteId ∧ r.coords.length = m.coordCount ∧
          bytesToCoords ((bs.drop m.fileOffset).take (m.coordCount * 3)) = r.coords)
        metas runs := by
  rcases loadMeta_chunk_agree bs 0 metas h (maxCoordCount metas) (le_maxCoordCount metas)
    with ⟨runs, hruns, hrel⟩
  refine ⟨runs, hruns, (List.Forall₂.length_eq hrel).symm, ?_⟩
  refine forall₂_imp_mem hrel ?_
  intro m _ r hr
  simpa using hr

/-- Witness for C5, on a concrete two-record file. -/
theorem metadata_scan_agrees_full_decode_witness :
    loadCompactRunsMetadata wFileBytes =
      some ([⟨7, 2, 3⟩, ⟨9, 1, 12⟩] : List RunMeta) ∧
    ∃ runs, loadChunkGo 0 (maxCoordCount ([⟨7, 2, 3⟩, ⟨9, 1, 12⟩] : List RunMeta))
        ([⟨7, 2, 3⟩, ⟨9, 1, 12⟩] : List RunMeta) wFileBytes 0 = some runs ∧
      runs.length = ([⟨7, 2, 3⟩, ⟨9, 1, 12⟩] : List RunMeta).length ∧
      List.Forall₂
        (fun (m : RunMeta) (r : LoadedRun) =>
          r.spriteId = m.spriteId ∧ r.coords.length = m.coordCount ∧
          bytesToCoords ((wFileBytes.drop m.fileOffset).take (m.coordCount * 3)) = r.coords)
        ([⟨7, 2, 3⟩, ⟨9, 1, 12⟩] : List RunMeta) runs := by
  have hscan : loadCompactRunsMetadata wFileBytes =
      some ([⟨7, 2, 3⟩, ⟨9, 1, 12⟩] : List RunMeta) := by
    rw [wFileBytes, loadCompactRunsMetadata]
    rw [loadMetaGo]
    norm_num
    rw [loadMetaGo]
    norm_num [loadMetaGo]
  exact ⟨hscan, metadata_scan_agrees_full_decode wFileBytes _ hscan⟩

/-- Counterexample to C2 as stated: on a concrete input producing one run the
per-input call trace is write run, append ledger entry, flush ledger, flush
output — the ledger entry is appended (and the ledger flushed) BEFORE the run
output file is flushed, so the output flush never precedes the ledger append
as the claim requires. -/
theorem ledger_order_counterexample :
    processInputTrace wCfg wStream =
      [ExtractEvent.writeRun wStream, ExtractEvent.appendLedger,
       ExtractEvent.flushLedger, ExtractEvent.flushOutput] ∧
    ¬ (processInputTrace wCfg wStream).indexOf ExtractEvent.flushOutput <
        (processInputTrace wCfg wStream).indexOf ExtractEvent.appendLedger := by
  constructor
  · decide
  · decide

/-- Claim C2 (amended): per source input, the order of file-writing calls is:
write all run records, then append the ledger entry, then flush the ledger,
then flush the run output file — every run write precedes the ledger append,
and the ledger append and flush precede the output-file flush (not the other
way around, as the spec states). -/
theorem writes_then_ledger_then_output_flush (cfg : ExtractConfig) (frames : List Frame) :
    (∀ i e, (processInputTrace cfg frames)[i]? = some (ExtractEvent.writeRun e) →
        i < (segmentAll cfg frames).length) ∧
    (processInputTrace cfg frames)[(segmentAll cfg frames).length]? =
      some ExtractEvent.appendLedger ∧
    (processInputTrace cfg frames)[(segmentAll cfg frames).length + 1]? =
      some ExtractEvent.flushLedger ∧
    (processInputTrace cfg frames)[(segmentAll cfg frames).length + 2]? =
      some ExtractEvent.flushOutput := by
  have hlen : ((segmentAll cfg frames).map ExtractEvent.writeRun).length =
      (segmentAll cfg frames).length := List.length_map _ _
  refine ⟨?_, ?_, ?_, ?_⟩
  · intro i e hi
    by_contra hge
    push_neg at hge
    rw [processInputTrace, List.getElem?_append_right (by omega)] at hi
    rw [hlen] at hi
    rcases hk : i - (segmentAll cfg frames).length with _ | _ | _ | k
    all_goals rw [hk] at hi
    · exact ExtractEvent.noConfusion (Option.some.inj hi)
    · exact ExtractEvent.noConfusion (Option.some.inj hi)
    · exact ExtractEvent.noConfusion (Option.some.inj hi)
    · simp at hi
  · rw [processInputTrace, List.getElem?_append_right (by omega)]
    rw [hlen, Nat.sub_self]
    rfl
  · rw [processInputTrace, List.getElem?_append_right (by omega)]
    rw [hlen, Nat.add_sub_cancel_left]
    rfl
  · rw [processInputTrace, List.getElem?_append_right (by omega)]
    rw [hlen]
    have : (segmentAll cfg frames).length + 2 - (segmentAll cfg frames).length = 2 := by omega
    rw [this]
    rfl

/-- Witness for amended C2: on the one-run input the three tail events sit at
indices 1, 2, 3 of the trace, after the single run write at index 0. -/
theorem writes_then_ledger_then_output_flush_witness :
    (processInputTrace wCfg wStream)[1]? = some ExtractEvent.appendLedger ∧
    (processInputTrace wCfg wStream)[2]? = some ExtractEvent.flushLedger ∧
    (processInputTrace wCfg wStream)[3]? = some ExtractEvent.flushOutput := by
  have h := writes_then_ledger_then_output_flush wCfg wStream
  have hlen : (segmentAll wCfg wStream).length = 1 := by decide
  rw [hlen] at h
  exact ⟨h.2.1, h.2.2.1, h.2.2.2⟩

/-- Counterexample to C7 as stated: for the scenario samples (0,0,region 1) at
t=0 ms and (10,0,region 1) at t=500 ms with a 500 ms interval, the animation
state at t=250 ms does yield `interp_t = 1/2`, but the two samples map 160 px
apart — beyond the 16 px interpolation threshold — so interpolation is
suppressed and the emitted position is NOT the midpoint of the two mapped
positions. -/
theorem midpoint_scenario_counterexample :
    get_animation_state 500 w7Frames.length 250 = some ⟨0, 1, 1/2⟩ ∧
    (interpolate_sprite w7Regions 0 w7Frames ⟨0, 1, 1/2⟩).map SpriteInst.position ≠
      some (((convert_coords w7Regions (0, 0, 1)).1 +
              (convert_coords w7Regions (10, 0, 1)).1) / 2,
            ((convert_coords w7Regions (0, 0, 1)).2 +
              (convert_coords w7Regions (10, 0, 1)).2) / 2) := by
  constructor
  · decide
  · decide

/-- Claim C7 (amended): for the scenario samples and any region table
containing region 1, the playback computation at t=250 ms yields
`interp_t = 1/2`, but because the two coordinates are 10 tiles = 160 px apart
(beyond the one-tile interpolation threshold) the interpolation parameter is
suppressed to 0 and the emitted pixel position is exactly the first
coordinate's mapped position (facing right), not the midpoint. -/
theorem midpoint_scenario_amended (regions : Int → Option (ℚ × ℚ)) (mx my : ℚ)
    (h : regions 1 = some (mx, my)) :
    get_animation_state 500 w7Frames.length 250 = some ⟨0, 1, 1/2⟩ ∧
    interpolate_sprite regions 0 w7Frames ⟨0, 1, 1/2⟩ =
      some ⟨convert_coords regions (0, 0, 1), 0, Direction.right⟩ := by
  have hf0 : (w7Frames.getD 0 default).coords = (0, 0, 1) := rfl
  have hf1 : (w7Frames.getD 1 default).coords = (10, 0, 1) := rfl
  have hcv0 : convert_coords regions (0, 0, 1) =
      ((0 + mx - 217.5) * 16 + 4096, (0 + my - 221.5) * 16 + 4096) := by
    simp [convert_coords, h]
  have hcv1 : convert_coords regions (10, 0, 1) =
      ((10 + mx - 217.5) * 16 + 4096, (0 + my - 221.5) * 16 + 4096) := by
    simp [convert_coords, h]
  have hdx : (convert_coords regions (10, 0, 1)).1 - (convert_coords regions (0, 0, 1)).1
      = 160 := by
    rw [hcv0, hcv1]
    ring
  have hdy : (convert_coords regions (10, 0, 1)).2 - (convert_coords regions (0, 0, 1)).2
      = 0 := by
    rw [hcv0, hcv1]
    ring
  constructor
  · decide
  · simp only [interpolate_sprite, w7Frames, List.length_cons, List.length_nil]
    rw [if_neg (by norm_num)]
    simp only [List.getD_cons_zero, List.getD_cons_succ]
    have hg0 : (⟨0, 1, 1, 0, 0, 0, 1, 0⟩ : Frame).coords = (0, 0, 1) := rfl
    have hg1 : (⟨500, 1, 1, 0, 10, 0, 1, 1⟩ : Frame).coords = (10, 0, 1) := rfl
    simp only [hg0, hg1, hdx, hdy]
    norm_num [Direction.from_movement, Prod.mk.eta]

/-- Witness for amended C7, at the concrete region table placing region 1 at
offset (217.5, 221.5). -/
theorem midpoint_scenario_amended_witness :
    get_animation_state 500 w7Frames.length 250 = some ⟨0, 1, 1/2⟩ ∧
    interpolate_sprite w7Regions 0 w7Frames ⟨0, 1, 1/2⟩ =
      some ⟨convert_coords w7Regions (0, 0, 1), 0, Direction.right⟩ :=
  midpoint_scenario_amended w7Regions 217.5 221.5 (by simp [w7Regions])

/-- Claim C10: in the windowed player, when a run's current coordinate index
lies inside the resident window but the next index (current + 1, clamped to
the run's last index) lies at or beyond the window end, the interpolation
target is the current coordinate itself, so the emitted position equals the
current coordinate's mapped position (with the uniform (-8, -8) sprite
centering every emitted instance gets) and the remembered direction is
unchanged — the sprite holds still for that frame instead of being skipped or
extrapolated. -/
theorem window_end_holds_still (env : PlayerEnv) (timeMs runOffset : ℚ)
    (totalCoords : Nat) (run : LoadedRun) (dir : Direction) (ci : Nat)
    (hci : ci = (timeMs / env.effectiveIntervalMs + runOffset).floor.toNat)
    (hfin : ci < totalCoords)
    (hlo : env.loadedChunkStart ≤ ci) (hhi : ci < env.loadedChunkEnd)
    (hloc : ci - env.loadedChunkStart < run.coords.length)
    (hnext : env.loadedChunkEnd ≤ min (ci + 1) (totalCoords - 1))
    (hval : convert_coords env.regions
        (((run.coords.getD (ci - env.loadedChunkStart) default).x : Int),
         ((run.coords.getD (ci - env.loadedChunkStart) default).y : Int),
         ((run.coords.getD (ci - env.loadedChunkStart) default).mapId : Int)) ≠
      INVALID_MAP_ID_FLAG) :
    playerStep env timeMs runOffset totalCoords run dir =
      (some ((convert_coords env.regions
          (((run.coords.getD (ci - env.loadedChunkStart) default).x : Int),
           ((run.coords.getD (ci - env.loadedChunkStart) default).y : Int),
           ((run.coords.getD (ci - env.loadedChunkStart) default).mapId : Int))).1 - 8,
        (convert_coords env.regions
          (((run.coords.getD (ci - env.loadedChunkStart) default).x : Int),
           ((run.coords.getD (ci - env.loadedChunkStart) default).y : Int),
           ((run.coords.getD (ci - env.loadedChunkStart) default).mapId : Int))).2 - 8),
       dir) := by
  subst hci
  have h1 : ¬ (totalCoords ≤ (timeMs / env.effectiveIntervalMs + runOffset).floor.toNat) :=
    not_le.mpr hfin
  have h2 : ¬ ((timeMs / env.effectiveIntervalMs + runOffset).floor.toNat <
        env.loadedChunkStart ∨
      env.loadedChunkEnd ≤ (timeMs / env.effectiveIntervalMs + runOffset).floor.toNat) := by
    push_neg
    exact ⟨hlo, hhi⟩
  have h3 : ¬ (run.coords.length ≤
      (timeMs / env.effectiveIntervalMs + runOffset).floor.toNat - env.loadedChunkStart) :=
    not_le.mpr hloc
  have h4 : ¬ (min ((timeMs / env.effectiveIntervalMs + runOffset).floor.toNat + 1)
      (totalCoords - 1) < env.loadedChunkEnd) := not_lt.mpr hnext
  have h5 : ¬ (convert_coords env.regions
        (((run.coords.getD ((timeMs / env.effectiveIntervalMs + runOffset).floor.toNat -
            env.loadedChunkStart) default).x : Int),
         ((run.coords.getD ((timeMs / env.effectiveIntervalMs + runOffset).floor.toNat -
            env.loadedChunkStart) default).y : Int),
         ((run.coords.getD ((timeMs / env.effectiveIntervalMs + runOffset).floor.toNat -
            env.loadedChunkStart) default).mapId : Int)) = INVALID_MAP_ID_FLAG ∨
      convert_coords env.regions
        (((run.coords.getD ((timeMs / env.effectiveIntervalMs + runOffset).floor.toNat -
            env.loadedChunkStart) default).x : Int),
         ((run.coords.getD ((timeMs / env.effectiveIntervalMs + runOffset).floor.toNat -
            env.loadedChunkStart) default).y : Int),
         ((run.coords.getD ((timeMs / env.effectiveIntervalMs + runOffset).floor.toNat -
            env.loadedChunkStart) default).mapId : Int)) = INVALID_MAP_ID_FLAG) := by
    push_neg
    exact ⟨hval, hval⟩
  simp only [playerStep, if_neg h1, if_neg h2, if_neg h3, if_neg h4, if_neg h5]
  simp [sub_self]
  intro hc
  exact absurd hc (by norm_num)

/-- Witness for C10: at t=250 ms with a 125 ms interval the coordinate index
is 2, the last resident index of window [0, 3) of a 10-coordinate run; the
sprite is emitted at coordinate (2, 0, region 1)'s mapped position minus the
(8, 8) centering, with the direction unchanged. -/
theorem window_end_holds_still_witness :
    playerStep wEnv 250 0 10 wLoadedRun Direction.down =
      (some ((convert_coords w7Regions (2, 0, 1)).1 - 8,
             (convert_coords w7Regions (2, 0, 1)).2 - 8), Direction.down) := by
  have h := window_end_holds_still wEnv 250 0 10 wLoadedRun Direction.down 2
    (by decide) (by decide) (by decide) (by decide) (by decide) (by decide) (by decide)
  exact h
